import Mathlib

/-!
Verification of the hierarchical configuration core of `synflownet`
(`src/synflownet/config.py`): the `MISSING` sentinel, strict dataclass
config nodes, and the two recursive tree operations `init_empty` and
`override_config`.

The embedding is twofold:

* a pure tree model (`Val`), in which a config node is a value carrying its
  schema (its dataclass) and its current field values, and in-place mutation
  is modelled by explicit state passing of the (exclusively owned) tree;
* a heap model (`Heap`), used for the claims about object identity and
  aliasing of `init_empty`: objects live at numeric addresses, nested
  dataclass fields hold references, and allocation uses fresh addresses.

Python floats are modelled as exact rationals: the configuration code only
stores and compares float literals, never computes with them.
-/

set_option autoImplicit false

namespace SynFlowNet

/-- A primitive (scalar) Python value as it occurs in the configuration
code: ints, floats (modelled as exact rationals), strings, booleans, and
`None`. -/
inductive Prim where
  | int (n : Int)
  | float (q : Rat)
  | str (s : String)
  | bool (b : Bool)
  | pynone
  deriving DecidableEq, Repr

mutual
/-- The declared type of one dataclass field: either a scalar type together
with its declared default (`none` standing for a `MISSING` default, as in
`log_dir: str = MISSING`), or a nested config dataclass. -/
inductive FieldTy where
  | scalar (default : Option Prim)
  | nested (s : Schema)
  deriving DecidableEq, Repr

/-- The declared fields of a dataclass, in declaration order. -/
inductive SchemaFields where
  | nil
  | cons (name : String) (ty : FieldTy) (rest : SchemaFields)
  deriving DecidableEq, Repr

/-- A config dataclass: a class name and its declared fields.  This is what
`fields(cfg)` and `f.type` expose at runtime in the Python code. -/
inductive Schema where
  | mk (cls : String) (fields : SchemaFields)
  deriving DecidableEq, Repr
end

/-- The class name of a schema. -/
def Schema.clsOf : Schema → String
  | .mk c _ => c

/-- The declared field list of a schema. -/
def Schema.fieldList : Schema → SchemaFields
  | .mk _ fs => fs

mutual
/-- A runtime Python value stored in a config field or supplied as an
override: the `MISSING` sentinel, a primitive, a mapping (a `dict`, as in
the `overrides` argument), or a dataclass instance (a config node, which
carries its class and its current field values). -/
inductive Val where
  | missing
  | prim (p : Prim)
  | dict (d : Entries)
  | node (s : Schema) (vals : Entries)
  deriving DecidableEq, Repr

/-- An ordered association of field names to values: the entries of a
`dict` (insertion order) or the attributes of a dataclass instance
(declaration order). -/
inductive Entries where
  | nil
  | cons (k : String) (v : Val) (rest : Entries)
  deriving DecidableEq, Repr
end

/-- The sentinel `from omegaconf import MISSING` as it is used by this
code: a single distinguished value, not equal to any primitive or node. -/
def MISSING : Val := Val.missing

/-- Build a `SchemaFields` list from a `List` literal. -/
def sfList : List (String × FieldTy) → SchemaFields
  | [] => .nil
  | (n, ty) :: rest => .cons n ty (sfList rest)

/-- Build an `Entries` list from a `List` literal. -/
def eList : List (String × Val) → Entries
  | [] => .nil
  | (k, v) :: rest => .cons k v (eList rest)

/-- First value stored under key `k` (Python attribute lookup / `dict`
indexing). -/
def entLookup : Entries → String → Option Val
  | .nil, _ => none
  | .cons k v rest, k' => if k = k' then some v else entLookup rest k'

/-- Whether `k` occurs among the keys. -/
def keyMem : Entries → String → Bool
  | .nil, _ => false
  | .cons k _ rest, k' => k = k' || keyMem rest k'

/-- Replace the value stored under key `k` (first occurrence), leaving the
key set and order unchanged; identity when the key is absent. -/
def entSet : Entries → String → Val → Entries
  | .nil, _, _ => .nil
  | .cons k v rest, k', v' =>
    if k = k' then .cons k v' rest else .cons k v (entSet rest k' v')

/-- The list of keys, in order. -/
def keysE : Entries → List String
  | .nil => []
  | .cons k _ rest => k :: keysE rest

/-- Whether the keys are pairwise distinct (always true of a Python `dict`
and of the attributes of a dataclass instance). -/
def nodupKeys : Entries → Bool
  | .nil => true
  | .cons k _ rest => !keyMem rest k && nodupKeys rest

/-- Look up the declared type of field `name` (first occurrence). -/
def schemaFind : SchemaFields → String → Option FieldTy
  | .nil, _ => none
  | .cons n ty rest, n' => if n = n' then some ty else schemaFind rest n'

/-- Whether `name` is a declared field name. -/
def schemaMem : SchemaFields → String → Bool
  | .nil, _ => false
  | .cons n _ rest, n' => n = n' || schemaMem rest n'

/-- The declared field names, in declaration order. -/
def schemaNames : SchemaFields → List String
  | .nil => []
  | .cons n _ rest => n :: schemaNames rest

mutual
/-- Declared field names are pairwise distinct, at every depth (Python
dataclasses cannot declare a field name twice). -/
def schemaWF : Schema → Bool
  | .mk _ fs => schemaFieldsWF fs && schemaNodup fs

/-- Each nested schema among the fields is well formed. -/
def schemaFieldsWF : SchemaFields → Bool
  | .nil => true
  | .cons _ (.scalar _) rest => schemaFieldsWF rest
  | .cons _ (.nested s) rest => schemaWF s && schemaFieldsWF rest

/-- The field names of one schema level are pairwise distinct. -/
def schemaNodup : SchemaFields → Bool
  | .nil => true
  | .cons n _ rest => !schemaMem rest n && schemaNodup rest
end

mutual
/-- Dataclass construction `S()`: every scalar field takes its declared
default and every nested field its `default_factory` instance, as in the
`field(default_factory=...)` declarations of `Config`. -/
def defaultInst : Schema → Val
  | .mk c fs => .node (.mk c fs) (defaultFields fs)

/-- The default attribute values of a field list, in declaration order. -/
def defaultFields : SchemaFields → Entries
  | .nil => .nil
  | .cons n (.scalar (some p)) rest => .cons n (.prim p) (defaultFields rest)
  | .cons n (.scalar none) rest => .cons n .missing (defaultFields rest)
  | .cons n (.nested s) rest => .cons n (defaultInst s) (defaultFields rest)
end

/-- Python's `dataclasses.is_dataclass` applied to a stored value: true
exactly for dataclass instances (config nodes). -/
def is_dataclass : Val → Bool
  | .node _ _ => true
  | _ => false

/-- The post-override check `value is MISSING` that the spec requires
consumer code to be able to perform. -/
def is_missing : Val → Bool
  | .missing => true
  | _ => false

/-- Whether a value is a Python mapping (has `.items()`). -/
def isDict : Val → Bool
  | .dict _ => true
  | _ => false

/-- Errors surfaced by the configuration core. `unknownField` is the
strictness failure on an undeclared attribute name; `notAMapping` is the
attribute error Python raises when `override_config` calls `.items()` on a
non-mapping override value. -/
inductive Err where
  | unknownField (cls : String) (name : String)
  | notAMapping
  deriving DecidableEq, Repr

/-- Modelled from the spec: `StrictDataClass` (synflownet/utils/misc.py, a
file whose source is not available here; only its import and the spec
describe it).  Reading an attribute of a config node fails with
`UnknownFieldError` when the name is not a declared field of the node's
schema; a dataclass instance has exactly its declared fields as
attributes. -/
def get_attr : Val → String → Except Err Val
  | .node s vs, k =>
    match entLookup vs k with
    | some v => .ok v
    | none => .error (.unknownField s.clsOf k)
  | _, k => .error (.unknownField "not_a_dataclass" k)

/-- Modelled from the spec: `StrictDataClass` write access.  Writing an
attribute of a config node fails with `UnknownFieldError` when the name is
not declared; otherwise the named attribute (and nothing else) is
updated. -/
def set_attr : Val → String → Val → Except Err Val
  | .node s vs, k, v =>
    if keyMem vs k then .ok (.node s (entSet vs k v))
    else .error (.unknownField s.clsOf k)
  | _, k, _ => .error (.unknownField "not_a_dataclass" k)

/-- The outcome of an in-place mutating call: either normal return of the
mutated tree, or an exception together with the (partially mutated) tree
as it stands when the exception escapes. -/
inductive OvResult where
  | ok (cfg : Val)
  | err (e : Err) (cfg : Val)
  deriving DecidableEq, Repr

/-- The tree as left behind by the call, whether or not it raised. -/
def OvResult.resultCfg : OvResult → Val
  | .ok cfg => cfg
  | .err _ cfg => cfg

mutual
/-- `override_config(cfg, overrides)` from src/synflownet/config.py lines
138-153: iterate over `overrides.items()` (an attribute error if
`overrides` is not a mapping); for each `(key, value)`, if the current
value `getattr(cfg, key)` is a dataclass instance, recurse into it with
`value`, else `setattr(cfg, key, value)`.  Returns the mutated `cfg`. -/
def override_config (cfg : Val) (overrides : Val) : OvResult :=
  match overrides with
  | .dict d => override_items cfg d
  | _ => .err .notAMapping cfg

/-- The `for key, value in overrides.items()` loop of `override_config`,
processing entries in insertion order; an exception stops the loop and
leaves the mutations made so far in place. -/
def override_items (cfg : Val) (d : Entries) : OvResult :=
  match d with
  | .nil => .ok cfg
  | .cons key value rest =>
    match get_attr cfg key with
    | .error e => .err e cfg
    | .ok cur =>
      if is_dataclass cur then
        match override_config cur value with
        | .ok cur' =>
          match set_attr cfg key cur' with
          | .ok cfg' => override_items cfg' rest
          | .error e => .err e cfg
        | .err e cur' =>
          match set_attr cfg key cur' with
          | .ok cfg' => .err e cfg'
          | .error e2 => .err e2 cfg
      else
        match set_attr cfg key value with
        | .ok cfg' => override_items cfg' rest
        | .error e => .err e cfg
end

mutual
/-- The body of the `for f in fields(cfg)` loop of `init_empty`
(src/synflownet/config.py lines 120-135), expressed per declared field:
a field whose declared type `f.type` is a dataclass is assigned
`init_empty(f.type())` (a freshly constructed default instance, blanked),
any other field is assigned `MISSING`.  Since the loop assigns every
declared field, the resulting attribute list is this map over the declared
fields. -/
def init_empty_fields : SchemaFields → Entries
  | .nil => .nil
  | .cons name (.nested s) rest =>
    .cons name (init_empty_schema s) (init_empty_fields rest)
  | .cons name (.scalar _) rest =>
    .cons name .missing (init_empty_fields rest)

/-- `init_empty(f.type())`: construct the default instance of the nested
dataclass and blank all of its fields.  (The default values are
immediately overwritten, so the result is the instance whose attributes
are `init_empty_fields` of its declared fields.) -/
def init_empty_schema : Schema → Val
  | .mk c fs => .node (.mk c fs) (init_empty_fields fs)
end

/-- `init_empty(cfg)` from src/synflownet/config.py lines 120-135: set
every declared field of the dataclass instance, dispatching on the
declared type `f.type` (not on the current value), and return the mutated
instance.  On a non-dataclass argument Python's `fields()` raises; that
case is left as the identity here and is never exercised. -/
def init_empty (cfg : Val) : Val :=
  match cfg with
  | .node s _ => .node s (init_empty_fields s.fieldList)
  | v => v

/-! ## Heap model

Used for the claims about object identity: `init_empty` replaces each
nested field by a freshly constructed instance, so the heap model makes
allocation and addresses explicit.  Values stored in attribute slots are
the sentinel, primitives, or references to heap objects. -/

/-- A heap-stored attribute value. -/
inductive HVal where
  | missing
  | prim (p : Prim)
  | ref (a : Nat)
  deriving DecidableEq, Repr

/-- A heap object: a dataclass instance, carrying its class (schema) and
its attribute slots. -/
structure HObj where
  schema : Schema
  vals : List (String × HVal)
  deriving DecidableEq, Repr

/-- A heap: objects at numeric addresses, plus the next fresh address.
Every address ever allocated is below `next`. -/
structure Heap where
  objs : List (Nat × HObj)
  next : Nat
  deriving DecidableEq, Repr

/-- Every address of an allocation list is below the bound `n`. -/
def objsBelow : List (Nat × HObj) → Nat → Bool
  | [], _ => true
  | (c, _) :: rest, n => decide (c < n) && objsBelow rest n

/-- Every allocated address is below the fresh-address watermark. -/
def heapWF (h : Heap) : Bool :=
  objsBelow h.objs h.next

/-- Dereference an address (first entry wins; allocation never reuses an
address, so the entry is unique). -/
def hgetObjs : List (Nat × HObj) → Nat → Option HObj
  | [], _ => none
  | (c, o) :: rest, a => if c = a then some o else hgetObjs rest a

/-- Dereference an address in a heap. -/
def hget (h : Heap) (a : Nat) : Option HObj :=
  hgetObjs h.objs a

/-- First slot value stored under `k`. -/
def hlookup : List (String × HVal) → String → Option HVal
  | [], _ => none
  | (k, v) :: rest, k' => if k = k' then some v else hlookup rest k'

/-- Whether `k` is among the slot names. -/
def hkeyMem : List (String × HVal) → String → Bool
  | [], _ => false
  | (k, _) :: rest, k' => k = k' || hkeyMem rest k'

/-- Replace the slot value under `k` (first occurrence); identity when the
slot is absent. -/
def hvalsSet : List (String × HVal) → String → HVal → List (String × HVal)
  | [], _, _ => []
  | (k, v) :: rest, k', v' =>
    if k = k' then (k, v') :: rest else (k, v) :: hvalsSet rest k' v'

/-- Update the object at address `a` (first entry) with a new slot value
for `k`. -/
def hsetObjs : List (Nat × HObj) → Nat → String → HVal → List (Nat × HObj)
  | [], _, _, _ => []
  | (c, o) :: rest, a, k, v =>
    if c = a then (c, { o with vals := hvalsSet o.vals k v }) :: rest
    else (c, o) :: hsetObjs rest a k v

/-- In-place attribute write `setattr(obj_at_a, k, v)`: update the slot of
the object at address `a`, leaving every other object untouched. -/
def hset (h : Heap) (a : Nat) (k : String) (v : HVal) : Heap :=
  { h with objs := hsetObjs h.objs a k v }

/-- Allocate a new object at the fresh address. -/
def halloc (h : Heap) (o : HObj) : Heap × Nat :=
  ({ objs := (h.next, o) :: h.objs, next := h.next + 1 }, h.next)

/-- Every declared field name has an attribute slot. -/
def namesPresent : SchemaFields → List (String × HVal) → Bool
  | .nil, _ => true
  | .cons n _ rest, vals => hkeyMem vals n && namesPresent rest vals

mutual
/-- Dataclass construction `S()` on the heap: evaluate the field defaults
in declaration order (each `default_factory` of a nested field allocating
a fresh default instance), then allocate the instance itself. -/
def instantiate (s : Schema) (h : Heap) : Heap × Nat :=
  match s with
  | .mk c fs =>
    let (h1, vs) := instFields fs h
    halloc h1 ⟨.mk c fs, vs⟩

/-- Evaluate the declared defaults of a field list, in order, threading
the heap through the nested allocations. -/
def instFields : SchemaFields → Heap → Heap × List (String × HVal)
  | .nil, h => (h, [])
  | .cons n (.scalar (some p)) rest, h =>
    let (h1, vs) := instFields rest h
    (h1, (n, .prim p) :: vs)
  | .cons n (.scalar none) rest, h =>
    let (h1, vs) := instFields rest h
    (h1, (n, .missing) :: vs)
  | .cons n (.nested s) rest, h =>
    let (h1, b) := instantiate s h
    let (h2, vs) := instFields rest h1
    (h2, (n, .ref b) :: vs)
end

mutual
/-- The `for f in fields(cfg)` loop of `init_empty` on the heap, for the
object at address `a` whose declared fields are `fs`: a nested field is
assigned a reference to `init_empty(f.type())` — a freshly constructed,
then blanked, instance — and a scalar field is assigned `MISSING`. -/
def init_empty_fields_at (fs : SchemaFields) (h : Heap) (a : Nat) : Heap :=
  match fs with
  | .nil => h
  | .cons name (.nested s) rest =>
    let (h1, b) := instantiate s h
    let h2 := init_empty_at s h1 b
    init_empty_fields_at rest (hset h2 a name (.ref b)) a
  | .cons name (.scalar _) rest =>
    init_empty_fields_at rest (hset h a name .missing) a

/-- `init_empty` applied to the object at `a`, an instance of class `s`
(`fields(cfg)` reads the declared fields off the instance's class). -/
def init_empty_at (s : Schema) (h : Heap) (a : Nat) : Heap :=
  match s with
  | .mk _ fs => init_empty_fields_at fs h a
end

/-- `init_empty(cfg)` on the heap: blank the object `cfg` points to and
return the same reference (`return cfg`). -/
def init_empty_heap (h : Heap) (a : Nat) : Heap × Nat :=
  match hget h a with
  | some o => (init_empty_at o.schema h a, a)
  | none => (h, a)

mutual
/-- The object at `a` is a blanked instance of schema `s` whose nested
references (at every depth) all point at or above address `lo`: every
scalar field holds `MISSING` and every nested field holds a reference to a
blanked instance of the declared nested schema.  With `lo = 0` this is
plain blankedness; with `lo` the pre-call watermark it additionally states
that every nested instance is newly allocated. -/
def isBlankedFresh (h : Heap) (a : Nat) (s : Schema) (lo : Nat) : Bool :=
  match s with
  | .mk c fs =>
    match hget h a with
    | some o => o.schema == .mk c fs && blankedFieldsOK h o.vals fs lo
    | none => false

/-- Field-wise blankedness check against the declared field list. -/
def blankedFieldsOK (h : Heap) (vals : List (String × HVal))
    (fs : SchemaFields) (lo : Nat) : Bool :=
  match fs with
  | .nil => true
  | .cons name (.scalar _) rest =>
    (match hlookup vals name with
     | some .missing => true
     | _ => false) && blankedFieldsOK h vals rest lo
  | .cons name (.nested s') rest =>
    (match hlookup vals name with
     | some (.ref b) => decide (lo ≤ b) && isBlankedFresh h b s' lo
     | _ => false) && blankedFieldsOK h vals rest lo
end

mutual
/-- Well-formedness of a runtime value: the keys of every mapping and of
the attribute list of every node are pairwise distinct (true of every
Python `dict` and of every dataclass instance). -/
def valWF : Val → Bool
  | .missing => true
  | .prim _ => true
  | .dict d => nodupKeys d && entsWF d
  | .node _ vs => nodupKeys vs && entsWF vs

/-- Well-formedness of each value of an entry list. -/
def entsWF : Entries → Bool
  | .nil => true
  | .cons _ v rest => valWF v && entsWF rest
end

/-- Attribute read used in statements: the current value of field `k` of a
config node (`none` on a non-node or an absent field). -/
def fieldOf : Val → String → Option Val
  | .node _ vs, k => entLookup vs k
  | _, _ => none

/-- Whether the call returned normally. -/
def OvResult.isOk : OvResult → Bool
  | .ok _ => true
  | .err _ _ => false

/-- The exception the call raised, if any. -/
def OvResult.errOf : OvResult → Option Err
  | .ok _ => none
  | .err e _ => some e

mutual
/-- Frame predicate for `override_config`: comparing the tree before
(`cfg`) and after (`cfg'`) an override `ov`, every field whose name does
not appear in the overrides at the corresponding depth holds exactly its
pre-call value, and every overridden nested field is again framed by its
sub-overrides. -/
def frameOK (cfg cfg' ov : Val) : Bool :=
  match cfg, cfg', ov with
  | .node _ vs, .node _ vs', .dict d => frameVals vs vs' d
  | _, _, _ => true

/-- Field-wise frame check: iterate the pre-call fields `vs`, comparing
with the post-call fields `vs'` under the overrides `d`. -/
def frameVals (vs vs' : Entries) (d : Entries) : Bool :=
  match vs with
  | .nil => true
  | .cons k v rest =>
    (match entLookup d k with
     | none => decide (entLookup vs' k = some v)
     | some w =>
       if is_dataclass v then
         match entLookup vs' k with
         | some v' => frameOK v v' w
         | none => false
       else true)
    && frameVals rest vs' d
end

/-! ## Concrete schemas from src/synflownet/config.py -/

/-- Modelled from the spec: the domain sub-schemas `AlgoConfig`,
`ReplayConfig`, `ModelConfig`, `TasksConfig`, `VinaConfig`,
`Boltz2Config` and `ConditionalsConfig` are imported from modules whose
source is not available here; the spec treats them as out-of-scope inert
leaf data containers ("the individual domain config schemas ... are leaf
data only"), so each is represented as a nested dataclass with no fields
of its own. -/
def AlgoConfigS : Schema := .mk "AlgoConfig" (sfList [])

/-- Modelled from the spec: see `AlgoConfigS`. -/
def ModelConfigS : Schema := .mk "ModelConfig" (sfList [])

/-- Modelled from the spec: see `AlgoConfigS`. -/
def ReplayConfigS : Schema := .mk "ReplayConfig" (sfList [])

/-- Modelled from the spec: see `AlgoConfigS`. -/
def TasksConfigS : Schema := .mk "TasksConfig" (sfList [])

/-- Modelled from the spec: see `AlgoConfigS`. -/
def ConditionalsConfigS : Schema := .mk "ConditionalsConfig" (sfList [])

/-- Modelled from the spec: see `AlgoConfigS`. -/
def VinaConfigS : Schema := .mk "VinaConfig" (sfList [])

/-- Modelled from the spec: see `AlgoConfigS`. -/
def Boltz2ConfigS : Schema := .mk "Boltz2Config" (sfList [])

/-- `OptimizerConfig` (src/synflownet/config.py lines 16-47): eight scalar
fields with their declared defaults. -/
def OptimizerConfigS : Schema :=
  .mk "OptimizerConfig" (sfList [
    ("opt", .scalar (some (.str "adam"))),
    ("learning_rate", .scalar (some (.float (mkRat 1 10000)))),
    ("lr_decay", .scalar (some (.float (mkRat 20000 1)))),
    ("weight_decay", .scalar (some (.float (mkRat 1 100000000)))),
    ("momentum", .scalar (some (.float (mkRat 9 10)))),
    ("clip_grad_type", .scalar (some (.str "norm"))),
    ("clip_grad_param", .scalar (some (.float (mkRat 10 1)))),
    ("adam_eps", .scalar (some (.float (mkRat 1 100000000))))])

/-- `Config` (src/synflownet/config.py lines 50-117): the root schema, with
its scalar fields' declared defaults (`log_dir: str = MISSING` has a
`MISSING` default) and its nested sub-schemas in declaration order. -/
def ConfigS : Schema :=
  .mk "Config" (sfList [
    ("desc", .scalar (some (.str "noDesc"))),
    ("log_dir", .scalar none),
    ("resume", .scalar (some .pynone)),
    ("device", .scalar (some (.str "cuda"))),
    ("seed", .scalar (some (.int 0))),
    ("validate_every", .scalar (some (.int 1000))),
    ("checkpoint_every", .scalar (some .pynone)),
    ("store_all_checkpoints", .scalar (some (.bool false))),
    ("print_every", .scalar (some (.int 100))),
    ("start_at_step", .scalar (some (.int 0))),
    ("num_final_gen_steps", .scalar (some .pynone)),
    ("num_validation_gen_steps", .scalar (some .pynone)),
    ("num_training_steps", .scalar (some (.int 10000))),
    ("num_workers", .scalar (some (.int 0))),
    ("hostname", .scalar (some .pynone)),
    ("pickle_mp_messages", .scalar (some (.bool false))),
    ("mp_buffer_size", .scalar (some (.int 536870912))),
    ("git_hash", .scalar (some .pynone)),
    ("overwrite_existing_exp", .scalar (some (.bool false))),
    ("algo", .nested AlgoConfigS),
    ("model", .nested ModelConfigS),
    ("opt", .nested OptimizerConfigS),
    ("replay", .nested ReplayConfigS),
    ("task", .nested TasksConfigS),
    ("cond", .nested ConditionalsConfigS),
    ("reward", .scalar (some (.str "seh_reaction"))),
    ("vina", .nested VinaConfigS),
    ("boltz2", .nested Boltz2ConfigS)])

/-- Two-level attribute read `cfg.k1.k2`, for stating the nested-override
scenario. -/
def fieldOf2 (cfg : Val) (k1 k2 : String) : Option Val :=
  match fieldOf cfg k1 with
  | some sub => fieldOf sub k2
  | none => none

/-- The overrides of the spec scenario:
`{"opt": {"learning_rate": 5e-5}}`. -/
def scenarioOverrides : Val :=
  .dict (eList [("opt", .dict (eList
    [("learning_rate", .prim (.float (mkRat 5 100000)))]))])

/-- The tree left by `override_config(Config(), {"opt": {"learning_rate":
5e-5}})`. -/
def scenarioResult : Val :=
  (override_config (defaultInst ConfigS) scenarioOverrides).resultCfg

/-- The empty heap. -/
def heap0 : Heap := ⟨[], 0⟩

/-- A default `Config()` instance built on the empty heap: the heap it
creates and the address of the root object. -/
def configHeapPair : Heap × Nat := instantiate ConfigS heap0

/-- The root `Config` object of `configHeapPair`. -/
def configObj : HObj :=
  (hget configHeapPair.1 configHeapPair.2).getD ⟨ConfigS, []⟩

/-! ## Lemmas: entry lists -/

theorem entLookup_isSome (vs : Entries) (k : String) :
    (entLookup vs k).isSome = keyMem vs k := by
  match vs with
  | .nil => rfl
  | .cons k0 v rest =>
    have ih := entLookup_isSome rest k
    by_cases hk : k0 = k <;> simp [entLookup, keyMem, hk, ih]

theorem keyMem_entLookup_none (vs : Entries) (k : String)
    (h : keyMem vs k = false) : entLookup vs k = none := by
  have := entLookup_isSome vs k
  rw [h] at this
  exact Option.not_isSome_iff_eq_none.mp (by simp [this])

theorem keyMem_entLookup_some (vs : Entries) (k : String)
    (h : keyMem vs k = true) : ∃ v, entLookup vs k = some v := by
  have := entLookup_isSome vs k
  rw [h] at this
  exact Option.isSome_iff_exists.mp this

theorem entLookup_entSet_self (vs : Entries) (k : String) (v : Val)
    (h : keyMem vs k = true) : entLookup (entSet vs k v) k = some v := by
  match vs with
  | .nil => simp [keyMem] at h
  | .cons k0 v0 rest =>
    by_cases hk : k0 = k
    · simp [entSet, hk, entLookup]
    · simp only [keyMem, Bool.or_eq_true, decide_eq_true_eq] at h
      have h' : keyMem rest k = true := by
        rcases h with h | h
        · exact absurd h hk
        · exact h
      simp [entSet, hk, entLookup, entLookup_entSet_self rest k v h']

theorem entLookup_entSet_ne (vs : Entries) (k k' : String) (v : Val)
    (h : k ≠ k') : entLookup (entSet vs k v) k' = entLookup vs k' := by
  match vs with
  | .nil => rfl
  | .cons k0 v0 rest =>
    have ih := entLookup_entSet_ne rest k k' v h
    by_cases hk : k0 = k
    · subst hk
      simp [entSet, entLookup, h, ih]
    · by_cases hk' : k0 = k'
      · subst hk'
        simp [entSet, entLookup, hk]
      · simp [entSet, entLookup, hk, hk', ih]

theorem keyMem_entSet (vs : Entries) (k k' : String) (v : Val) :
    keyMem (entSet vs k v) k' = keyMem vs k' := by
  match vs with
  | .nil => rfl
  | .cons k0 v0 rest =>
    have ih := keyMem_entSet rest k k' v
    by_cases hk : k0 = k
    · subst hk
      by_cases hk' : k0 = k' <;> simp [entSet, keyMem, hk', ih]
    · by_cases hk' : k0 = k'
      · subst hk'
        simp [entSet, keyMem, hk]
      · simp [entSet, keyMem, hk, hk', ih]

theorem nodupKeys_entSet (vs : Entries) (k : String) (v : Val) :
    nodupKeys (entSet vs k v) = nodupKeys vs := by
  match vs with
  | .nil => rfl
  | .cons k0 v0 rest =>
    have ih := nodupKeys_entSet rest k v
    by_cases hk : k0 = k <;>
      simp [entSet, nodupKeys, hk, ih, keyMem_entSet]

theorem entsWF_lookup (d : Entries) (k : String) (w : Val)
    (hwf : entsWF d = true) (h : entLookup d k = some w) : valWF w = true := by
  match d with
  | .nil => simp [entLookup] at h
  | .cons k0 v0 rest =>
    rw [entsWF] at hwf
    simp only [Bool.and_eq_true] at hwf
    by_cases hk : k0 = k
    · simp [entLookup, hk] at h
      exact h ▸ hwf.1
    · simp [entLookup, hk] at h
      exact entsWF_lookup rest k w hwf.2 h

theorem entLookup_sizeOf (d : Entries) (k : String) (w : Val)
    (h : entLookup d k = some w) : sizeOf w < sizeOf d := by
  match d with
  | .nil => simp [entLookup] at h
  | .cons k0 v0 rest =>
    by_cases hk : k0 = k
    · simp [entLookup, hk] at h
      subst h
      simp
      omega
    · simp [entLookup, hk] at h
      have := entLookup_sizeOf rest k w h
      simp
      omega

/-! ## Lemmas: strict attribute access -/

theorem get_attr_some (s : Schema) (vs : Entries) (k : String) (v : Val)
    (h : entLookup vs k = some v) : get_attr (.node s vs) k = .ok v := by
  simp [get_attr, h]

theorem get_attr_unknown (s : Schema) (vs : Entries) (k : String)
    (h : keyMem vs k = false) :
    get_attr (.node s vs) k = .error (.unknownField s.clsOf k) := by
  simp [get_attr, keyMem_entLookup_none vs k h]

theorem set_attr_ok (s : Schema) (vs : Entries) (k : String) (v : Val)
    (h : keyMem vs k = true) :
    set_attr (.node s vs) k v = .ok (.node s (entSet vs k v)) := by
  simp [set_attr, h]

theorem set_attr_unknown (s : Schema) (vs : Entries) (k : String) (v : Val)
    (h : keyMem vs k = false) :
    set_attr (.node s vs) k v = .error (.unknownField s.clsOf k) := by
  simp [set_attr, h]

theorem nodupKeys_cons (k : String) (v : Val) (rest : Entries)
    (h : nodupKeys (.cons k v rest) = true) :
    keyMem rest k = false ∧ nodupKeys rest = true := by
  rw [nodupKeys] at h
  simp only [Bool.and_eq_true, Bool.not_eq_true'] at h
  exact h

/-! ## Characterization of a successful override run -/

/-- Field-wise characterization of a successful `override_items` run on a
config node: the class is unchanged, the attribute key set is unchanged,
fields not named in the overrides hold exactly their previous values, and
each named field was either recursively overridden (when its current value
is a dataclass instance) or directly assigned the override value. -/
theorem override_items_char (d : Entries) (s : Schema) (vs : Entries) (out : Val)
    (hnd : nodupKeys d = true)
    (h : override_items (.node s vs) d = .ok out) :
    ∃ vs', out = .node s vs' ∧
      (∀ k, keyMem vs' k = keyMem vs k) ∧
      (∀ k, keyMem d k = false → entLookup vs' k = entLookup vs k) ∧
      (∀ k w, entLookup d k = some w →
        ∃ cur, entLookup vs k = some cur ∧
          (is_dataclass cur = true →
            ∃ sub', override_config cur w = .ok sub' ∧ entLookup vs' k = some sub') ∧
          (is_dataclass cur = false → entLookup vs' k = some w)) := by
  match d with
  | .nil =>
    rw [override_items] at h
    refine ⟨vs, by injection h with h2; exact h2.symm, fun k => rfl, fun k _ => rfl, ?_⟩
    intro k w hw
    simp [entLookup] at hw
  | .cons key value rest =>
    obtain ⟨hkr, hndr⟩ := nodupKeys_cons key value rest hnd
    rw [override_items] at h
    cases hcur : entLookup vs key with
    | none =>
      have hkm0 : keyMem vs key = false := by
        rw [← entLookup_isSome, hcur]
        rfl
      simp only [get_attr_unknown s vs key hkm0] at h
      simp at h
    | some cur =>
      simp only [get_attr_some s vs key cur hcur] at h
      have hkm : keyMem vs key = true := by
        rw [← entLookup_isSome, hcur]
        rfl
      by_cases hdc : is_dataclass cur = true
      · rw [if_pos hdc] at h
        cases hov : override_config cur value with
        | ok cur' =>
          simp only [hov, set_attr_ok s vs key cur' hkm] at h
          obtain ⟨vs', hout, hkeys, huntouched, hnamed⟩ :=
            override_items_char rest s (entSet vs key cur') out hndr h
          refine ⟨vs', hout, ?_, ?_, ?_⟩
          · intro k
            rw [hkeys k, keyMem_entSet]
          · intro k hk
            rw [keyMem] at hk
            simp only [Bool.or_eq_false_iff, decide_eq_false_iff_not] at hk
            rw [huntouched k hk.2, entLookup_entSet_ne vs key k cur' hk.1]
          · intro k w hw
            rw [entLookup] at hw
            by_cases hkk : key = k
            · subst hkk
              rw [if_pos rfl] at hw
              injection hw with hw
              subst hw
              refine ⟨cur, hcur, ?_, ?_⟩
              · intro _
                refine ⟨cur', hov, ?_⟩
                rw [huntouched key hkr, entLookup_entSet_self vs key cur' hkm]
              · intro hfalse
                rw [hdc] at hfalse
                cases hfalse
            · rw [if_neg hkk] at hw
              obtain ⟨cur2, hcur2, hsub, hdir⟩ := hnamed k w hw
              rw [entLookup_entSet_ne vs key k cur' hkk] at hcur2
              exact ⟨cur2, hcur2, hsub, hdir⟩
        | err e cur' =>
          simp only [hov, set_attr_ok s vs key cur' hkm] at h
          simp at h
      · rw [if_neg hdc] at h
        simp only [set_attr_ok s vs key value hkm] at h
        obtain ⟨vs', hout, hkeys, huntouched, hnamed⟩ :=
          override_items_char rest s (entSet vs key value) out hndr h
        refine ⟨vs', hout, ?_, ?_, ?_⟩
        · intro k
          rw [hkeys k, keyMem_entSet]
        · intro k hk
          rw [keyMem] at hk
          simp only [Bool.or_eq_false_iff, decide_eq_false_iff_not] at hk
          rw [huntouched k hk.2, entLookup_entSet_ne vs key k value hk.1]
        · intro k w hw
          rw [entLookup] at hw
          by_cases hkk : key = k
          · subst hkk
            rw [if_pos rfl] at hw
            injection hw with hw
            subst hw
            refine ⟨cur, hcur, ?_, ?_⟩
            · intro htrue
              exact absurd htrue hdc
            · intro _
              rw [huntouched key hkr, entLookup_entSet_self vs key value hkm]
          · rw [if_neg hkk] at hw
            obtain ⟨cur2, hcur2, hsub, hdir⟩ := hnamed k w hw
            rw [entLookup_entSet_ne vs key k value hkk] at hcur2
            exact ⟨cur2, hcur2, hsub, hdir⟩

theorem entLookup_none_keyMem (vs : Entries) (k : String)
    (h : entLookup vs k = none) : keyMem vs k = false := by
  rw [← entLookup_isSome, h]
  rfl

theorem valWF_node (s : Schema) (vs : Entries) (h : valWF (.node s vs) = true) :
    nodupKeys vs = true ∧ entsWF vs = true := by
  rw [valWF] at h
  simpa using h

theorem valWF_dict (d : Entries) (h : valWF (.dict d) = true) :
    nodupKeys d = true ∧ entsWF d = true := by
  rw [valWF] at h
  simpa using h

/-- Sufficient pointwise conditions for the field-wise frame check. -/
theorem frameVals_of_pointwise (vs vs' d : Entries)
    (h1 : ∀ k, keyMem vs k = true → entLookup d k = none →
        entLookup vs' k = entLookup vs k)
    (h2 : ∀ k v w, entLookup vs k = some v → entLookup d k = some w →
        is_dataclass v = true →
        ∃ v', entLookup vs' k = some v' ∧ frameOK v v' w = true)
    (hnd : nodupKeys vs = true) :
    frameVals vs vs' d = true := by
  match vs with
  | .nil => rfl
  | .cons k v rest =>
    obtain ⟨hkr, hndr⟩ := nodupKeys_cons k v rest hnd
    rw [frameVals]
    simp only [Bool.and_eq_true]
    constructor
    · have hmem : keyMem (.cons k v rest) k = true := by simp [keyMem]
      have hlk : entLookup (.cons k v rest) k = some v := by simp [entLookup]
      cases hd : entLookup d k with
      | none =>
        have := h1 k hmem hd
        rw [hlk] at this
        simp [this]
      | some w =>
        by_cases hdc : is_dataclass v = true
        · obtain ⟨v', hv', hf⟩ := h2 k v w hlk hd hdc
          simp [hdc, hv', hf]
        · simp [Bool.of_not_eq_true hdc]
    · apply frameVals_of_pointwise rest vs' d ?_ ?_ hndr
      · intro k' hm hd
        have hne : k ≠ k' := by
          intro he
          subst he
          rw [hm] at hkr
          cases hkr
        have hm' : keyMem (.cons k v rest) k' = true := by simp [keyMem, hm]
        have := h1 k' hm' hd
        rw [this]
        simp [entLookup, hne]
      · intro k' v2 w hv2 hd hdc
        have hm : keyMem rest k' = true := by
          rw [← entLookup_isSome, hv2]
          rfl
        have hne : k ≠ k' := by
          intro he
          subst he
          rw [hm] at hkr
          cases hkr
        have hv2' : entLookup (.cons k v rest) k' = some v2 := by
          simp [entLookup, hne, hv2]
        exact h2 k' v2 w hv2' hd hdc

/-- Frame property of `override_config` (successful runs): the result is
framed by the overrides — fields not named at the corresponding depth are
exactly preserved. -/
theorem override_frame (ov cfg out : Val)
    (hwc : valWF cfg = true) (hwo : valWF ov = true)
    (h : override_config cfg ov = .ok out) :
    frameOK cfg out ov = true := by
  match ov with
  | .missing =>
    simp [override_config] at h
  | .prim p =>
    simp [override_config] at h
  | .node s2 v2 =>
    simp [override_config] at h
  | .dict d =>
    rw [override_config] at h
    match cfg with
    | .missing =>
      match d with
      | .nil =>
        rw [override_items] at h
        cases h
        rfl
      | .cons k w rest =>
        rw [override_items] at h
        simp [get_attr] at h
    | .prim p =>
      match d with
      | .nil =>
        rw [override_items] at h
        cases h
        rfl
      | .cons k w rest =>
        rw [override_items] at h
        simp [get_attr] at h
    | .dict d2 =>
      match d with
      | .nil =>
        rw [override_items] at h
        cases h
        rfl
      | .cons k w rest =>
        rw [override_items] at h
        simp [get_attr] at h
    | .node s vs =>
      have hnd : nodupKeys d = true := (valWF_dict d hwo).1
      have hed : entsWF d = true := (valWF_dict d hwo).2
      have hnv : nodupKeys vs = true := (valWF_node s vs hwc).1
      have hev : entsWF vs = true := (valWF_node s vs hwc).2
      obtain ⟨vs', hout, hkeys, huntouched, hnamed⟩ :=
        override_items_char d s vs out hnd h
      subst hout
      rw [frameOK]
      apply frameVals_of_pointwise vs vs' d ?_ ?_ hnv
      · intro k _ hd
        exact huntouched k (entLookup_none_keyMem d k hd)
      · intro k v w hv hd hdc
        obtain ⟨cur, hcur, hsub, _⟩ := hnamed k w hd
        rw [hv] at hcur
        injection hcur with hcur
        subst hcur
        obtain ⟨sub', hov, hlook⟩ := hsub hdc
        refine ⟨sub', hlook, ?_⟩
        have hwv : valWF v = true := entsWF_lookup vs k v hev hv
        have hww : valWF w = true := entsWF_lookup d k w hed hd
        exact override_frame w v sub' hwv hww hov
termination_by sizeOf ov
decreasing_by
  have h1 := entLookup_sizeOf d k w hd
  simp
  omega

/-! ## Lemmas: init_empty (pure model) -/

theorem init_empty_fields_lookup_nested (fs : SchemaFields) (k : String)
    (s' : Schema) (h : schemaFind fs k = some (.nested s')) :
    entLookup (init_empty_fields fs) k = some (init_empty_schema s') := by
  match fs with
  | .nil => simp [schemaFind] at h
  | .cons n (.nested s2) rest =>
    by_cases hn : n = k
    · subst hn
      simp [schemaFind] at h
      subst h
      simp [init_empty_fields, entLookup]
    · simp [schemaFind, hn] at h
      simp [init_empty_fields, entLookup, hn]
      exact init_empty_fields_lookup_nested rest k s' h
  | .cons n (.scalar d) rest =>
    by_cases hn : n = k
    · subst hn
      simp [schemaFind] at h
    · simp [schemaFind, hn] at h
      simp [init_empty_fields, entLookup, hn]
      exact init_empty_fields_lookup_nested rest k s' h

theorem init_empty_fields_lookup_scalar (fs : SchemaFields) (k : String)
    (dflt : Option Prim) (h : schemaFind fs k = some (.scalar dflt)) :
    entLookup (init_empty_fields fs) k = some .missing := by
  match fs with
  | .nil => simp [schemaFind] at h
  | .cons n (.nested s2) rest =>
    by_cases hn : n = k
    · subst hn
      simp [schemaFind] at h
    · simp [schemaFind, hn] at h
      simp [init_empty_fields, entLookup, hn]
      exact init_empty_fields_lookup_scalar rest k dflt h
  | .cons n (.scalar d) rest =>
    by_cases hn : n = k
    · subst hn
      simp [init_empty_fields, entLookup]
    · simp [schemaFind, hn] at h
      simp [init_empty_fields, entLookup, hn]
      exact init_empty_fields_lookup_scalar rest k dflt h

theorem init_empty_defaultInst (s : Schema) :
    init_empty (defaultInst s) = init_empty_schema s := by
  match s with
  | .mk c fs => rfl

theorem keyMem_iff_mem_keysE (vs : Entries) (k : String) :
    keyMem vs k = true ↔ k ∈ keysE vs := by
  match vs with
  | .nil => simp [keyMem, keysE]
  | .cons k0 v rest =>
    have ih := keyMem_iff_mem_keysE rest k
    rw [keyMem, keysE]
    simp only [Bool.or_eq_true, decide_eq_true_eq, List.mem_cons, ih]
    constructor
    · rintro (h | h)
      · exact Or.inl h.symm
      · exact Or.inr h
    · rintro (h | h)
      · exact Or.inl h.symm
      · exact Or.inr h

theorem schemaMem_iff_mem_names (fs : SchemaFields) (k : String) :
    schemaMem fs k = true ↔ k ∈ schemaNames fs := by
  match fs with
  | .nil => simp [schemaMem, schemaNames]
  | .cons n ty rest =>
    have ih := schemaMem_iff_mem_names rest k
    rw [schemaMem, schemaNames]
    simp only [Bool.or_eq_true, decide_eq_true_eq, List.mem_cons, ih]
    constructor
    · rintro (h | h)
      · exact Or.inl h.symm
      · exact Or.inr h
    · rintro (h | h)
      · exact Or.inl h.symm
      · exact Or.inr h

theorem is_dataclass_node (v : Val) (h : is_dataclass v = true) :
    ∃ s2 v2, v = .node s2 v2 := by
  match v with
  | .missing => cases h
  | .prim p => cases h
  | .dict d => cases h
  | .node s2 v2 => exact ⟨s2, v2, rfl⟩

/-! ## Single-entry override helpers -/

/-- A non-mapping override argument fails at `overrides.items()` with an
attribute error, before any mutation. -/
theorem override_config_not_mapping (cfg v : Val) (hv : isDict v = false) :
    override_config cfg v = .err .notAMapping cfg := by
  match v with
  | .dict d => simp [isDict] at hv
  | .missing => rfl
  | .prim p => rfl
  | .node s2 v2 => rfl

/-- Overriding one field whose current value is not a dataclass instance
assigns the override value directly. -/
theorem override_single_direct (s : Schema) (vs : Entries) (k : String)
    (cur w : Val) (hcur : entLookup vs k = some cur)
    (hdc : is_dataclass cur = false) :
    override_config (.node s vs) (.dict (.cons k w .nil))
      = .ok (.node s (entSet vs k w)) := by
  have hkm : keyMem vs k = true := by
    rw [← entLookup_isSome, hcur]
    rfl
  simp only [override_config, override_items, get_attr_some s vs k cur hcur,
    hdc, set_attr_ok s vs k w hkm]
  simp

/-- Overriding one field whose current value is a dataclass instance
recurses into it; a successful recursive override is written in place. -/
theorem override_single_nested (s : Schema) (vs : Entries) (k : String)
    (s2 : Schema) (v2 : Entries) (sub' w : Val)
    (hcur : entLookup vs k = some (.node s2 v2))
    (hov : override_config (.node s2 v2) w = .ok sub') :
    override_config (.node s vs) (.dict (.cons k w .nil))
      = .ok (.node s (entSet vs k sub')) := by
  have hkm : keyMem vs k = true := by
    rw [← entLookup_isSome, hcur]
    rfl
  simp only [override_config, override_items,
    get_attr_some s vs k (.node s2 v2) hcur, is_dataclass, hov,
    set_attr_ok s vs k sub' hkm]
  simp

/-- Overriding one field whose current value is a dataclass instance, when
the recursive override raises: the exception propagates and the partially
mutated sub-object stays in place. -/
theorem override_single_nested_err (s : Schema) (vs : Entries) (k : String)
    (s2 : Schema) (v2 : Entries) (e : Err) (sub' w : Val)
    (hcur : entLookup vs k = some (.node s2 v2))
    (hov : override_config (.node s2 v2) w = .err e sub') :
    override_config (.node s vs) (.dict (.cons k w .nil))
      = .err e (.node s (entSet vs k sub')) := by
  have hkm : keyMem vs k = true := by
    rw [← entLookup_isSome, hcur]
    rfl
  simp only [override_config, override_items,
    get_attr_some s vs k (.node s2 v2) hcur, is_dataclass, hov,
    set_attr_ok s vs k sub' hkm]
  simp

/-! ## Claim theorems -/

/-- C1 counterexample: overriding the scalar field `learning_rate` of a
default `OptimizerConfig` with the mapping `{"a": 1}` raises nothing — the
call returns normally and simply stores the mapping in the field — so no
`TypeMismatchError` is raised for a scalar field overridden with a
mapping, refuting the claim at this concrete input. -/
theorem c1_shape_mismatch_counterexample :
    (override_config (defaultInst OptimizerConfigS)
        (.dict (eList [("learning_rate",
          .dict (eList [("a", .prim (.int 1))]))]))).isOk = true ∧
    fieldOf (override_config (defaultInst OptimizerConfigS)
        (.dict (eList [("learning_rate",
          .dict (eList [("a", .prim (.int 1))]))]))).resultCfg "learning_rate"
      = some (.dict (eList [("a", .prim (.int 1))])) :=
  ⟨rfl, rfl⟩

/-- C1 (amended): `override_config` raises no `TypeMismatchError` (the
code defines none).  Overriding a field whose current value is a nested
config node with a non-mapping raises the attribute error produced by
calling `.items()` on a non-mapping; overriding a scalar field with a
mapping raises nothing and stores the mapping in the field. -/
theorem c1_shape_mismatch_amended (s : Schema) (vs : Entries) (k : String)
    (cur v : Val) (hcur : entLookup vs k = some cur) :
    (is_dataclass cur = true → isDict v = false →
      (override_config (.node s vs) (.dict (.cons k v .nil))).errOf
        = some .notAMapping) ∧
    (is_dataclass cur = false →
      override_config (.node s vs) (.dict (.cons k v .nil))
        = .ok (.node s (entSet vs k v))) := by
  constructor
  · intro hdc hv
    obtain ⟨s2, v2, rfl⟩ := is_dataclass_node cur hdc
    rw [override_single_nested_err s vs k s2 v2 .notAMapping (.node s2 v2) v
      hcur (override_config_not_mapping (.node s2 v2) v hv)]
    rfl
  · intro hdc
    exact override_single_direct s vs k cur v hcur hdc

/-- C1 amended, witness: on a default `Config`, overriding the nested
field `opt` with the scalar `3` raises the `.items()` attribute error, and
overriding the scalar field `desc` with the empty mapping returns
normally, storing the mapping. -/
theorem c1_shape_mismatch_amended_witness :
    entLookup (defaultFields ConfigS.fieldList) "opt"
      = some (defaultInst OptimizerConfigS) ∧
    (override_config (.node ConfigS (defaultFields ConfigS.fieldList))
        (.dict (.cons "opt" (.prim (.int 3)) .nil))).errOf
      = some .notAMapping ∧
    override_config (.node ConfigS (defaultFields ConfigS.fieldList))
        (.dict (.cons "desc" (.dict .nil) .nil))
      = .ok (.node ConfigS
          (entSet (defaultFields ConfigS.fieldList) "desc" (.dict .nil))) :=
  ⟨rfl,
   (c1_shape_mismatch_amended ConfigS (defaultFields ConfigS.fieldList) "opt"
      (defaultInst OptimizerConfigS) (.prim (.int 3)) rfl).1 rfl rfl,
   (c1_shape_mismatch_amended ConfigS (defaultFields ConfigS.fieldList) "desc"
      (.prim (.str "noDesc")) (.dict .nil) rfl).2 rfl⟩

/-- C2: the sentinel `MISSING` is a distinguished value: the membership
test `value is MISSING` is false for every primitive scalar a user could
supply or that appears as a schema default, and false for every nested
config node, while it is true for the sentinel itself — so `MISSING` never
collides with a real value. -/
theorem c2_missing_sentinel :
    (∀ p : Prim, is_missing (Val.prim p) = false) ∧
    (∀ s vs, is_missing (Val.node s vs) = false) ∧
    (∀ d, is_missing (Val.dict d) = false) ∧
    is_missing MISSING = true :=
  ⟨fun _ => rfl, fun _ _ => rfl, fun _ => rfl, rfl⟩

/-- C4: sparsity/frame of `override_config` — on a successful run over any
well-formed config node and overrides mapping, every field (at every
depth) whose name does not appear in the overrides at the corresponding
depth holds exactly its pre-call value. -/
theorem c4_override_sparsity (cfg ov out : Val)
    (hwc : valWF cfg = true) (hwo : valWF ov = true)
    (h : override_config cfg ov = .ok out) :
    frameOK cfg out ov = true :=
  override_frame ov cfg out hwc hwo h

/-- C4 witness: the spec scenario on a default `Config` — the run
succeeds and the frame predicate holds of it. -/
theorem c4_override_sparsity_witness :
    valWF (defaultInst ConfigS) = true ∧
    valWF scenarioOverrides = true ∧
    override_config (defaultInst ConfigS) scenarioOverrides
      = .ok scenarioResult ∧
    frameOK (defaultInst ConfigS) scenarioResult scenarioOverrides = true :=
  ⟨rfl, rfl, rfl,
   c4_override_sparsity (defaultInst ConfigS) scenarioOverrides scenarioResult
     rfl rfl rfl⟩

/-- C5: a nested override `{"sub": {"y": w}}` sets exactly `node.sub.y`
and leaves every other field of `node.sub` (and of `node`) unchanged; in
particular, on a default `Config`, `{"opt": {"learning_rate": 5e-5}}`
yields `cfg.opt.learning_rate == 5e-5` with `cfg.opt.weight_decay` still
`1e-8`. -/
theorem c5_nested_override (s s2 : Schema) (vs v2 : Entries)
    (sub y : String) (w curY : Val)
    (hsub : entLookup vs sub = some (.node s2 v2))
    (hy : entLookup v2 y = some curY)
    (hcy : is_dataclass curY = false) :
    (override_config (.node s vs)
        (.dict (.cons sub (.dict (.cons y w .nil)) .nil))
      = .ok (.node s (entSet vs sub (.node s2 (entSet v2 y w)))) ∧
     fieldOf2 (.node s (entSet vs sub (.node s2 (entSet v2 y w)))) sub y
       = some w ∧
     (∀ k, k ≠ y → entLookup (entSet v2 y w) k = entLookup v2 k) ∧
     (∀ k, k ≠ sub →
       entLookup (entSet vs sub (.node s2 (entSet v2 y w))) k
         = entLookup vs k)) ∧
    (fieldOf2 scenarioResult "opt" "learning_rate"
       = some (.prim (.float (mkRat 5 100000))) ∧
     fieldOf2 scenarioResult "opt" "weight_decay"
       = some (.prim (.float (mkRat 1 100000000)))) := by
  have hkm : keyMem vs sub = true := by
    rw [← entLookup_isSome, hsub]
    rfl
  have hkm2 : keyMem v2 y = true := by
    rw [← entLookup_isSome, hy]
    rfl
  refine ⟨⟨?_, ?_, ?_, ?_⟩, rfl, rfl⟩
  · exact override_single_nested s vs sub s2 v2 (.node s2 (entSet v2 y w))
      (.dict (.cons y w .nil)) hsub
      (override_single_direct s2 v2 y curY w hy hcy)
  · simp [fieldOf2, fieldOf, entLookup_entSet_self vs sub _ hkm,
      entLookup_entSet_self v2 y w hkm2]
  · intro k hk
    exact entLookup_entSet_ne v2 y k w (Ne.symm hk)
  · intro k hk
    exact entLookup_entSet_ne vs sub k _ (Ne.symm hk)

/-- C5 witness: the spec scenario, end to end, on the default `Config`
tree. -/
theorem c5_nested_override_witness :
    entLookup (defaultFields ConfigS.fieldList) "opt"
      = some (.node OptimizerConfigS (defaultFields OptimizerConfigS.fieldList)) ∧
    entLookup (defaultFields OptimizerConfigS.fieldList) "learning_rate"
      = some (.prim (.float (mkRat 1 10000))) ∧
    override_config (.node ConfigS (defaultFields ConfigS.fieldList))
        (.dict (.cons "opt"
          (.dict (.cons "learning_rate"
            (.prim (.float (mkRat 5 100000))) .nil)) .nil))
      = .ok (.node ConfigS (entSet (defaultFields ConfigS.fieldList) "opt"
          (.node OptimizerConfigS
            (entSet (defaultFields OptimizerConfigS.fieldList) "learning_rate"
              (.prim (.float (mkRat 5 100000))))))) :=
  ⟨rfl, rfl,
   ((c5_nested_override ConfigS OptimizerConfigS
      (defaultFields ConfigS.fieldList) (defaultFields OptimizerConfigS.fieldList)
      "opt" "learning_rate" (.prim (.float (mkRat 5 100000)))
      (.prim (.float (mkRat 1 10000))) rfl rfl rfl).1).1⟩

/-- C7: `init_empty` is idempotent — a second call leaves the tree in
exactly the state of the first call: the node of the same class with every
declared scalar field `MISSING` and every declared nested field a blanked
default instance of its declared schema. -/
theorem c7_init_empty_idempotent (s : Schema) (vs : Entries) :
    init_empty (init_empty (.node s vs)) = init_empty (.node s vs) ∧
    init_empty (.node s vs) = .node s (init_empty_fields s.fieldList) ∧
    (∀ k dflt, schemaFind s.fieldList k = some (.scalar dflt) →
      entLookup (init_empty_fields s.fieldList) k = some MISSING) ∧
    (∀ k s', schemaFind s.fieldList k = some (.nested s') →
      entLookup (init_empty_fields s.fieldList) k
        = some (init_empty_schema s')) := by
  refine ⟨rfl, rfl, ?_, ?_⟩
  · intro k dflt h
    exact init_empty_fields_lookup_scalar _ k dflt h
  · intro k s' h
    exact init_empty_fields_lookup_nested _ k s' h

/-- C7 witness: the idempotence equations and blanked-state lookups
evaluated on the concrete `Config` schema. -/
theorem c7_init_empty_idempotent_witness :
    init_empty (init_empty (.node ConfigS (defaultFields ConfigS.fieldList)))
      = init_empty (.node ConfigS (defaultFields ConfigS.fieldList)) ∧
    entLookup (init_empty_fields ConfigS.fieldList) "seed" = some MISSING ∧
    entLookup (init_empty_fields ConfigS.fieldList) "opt"
      = some (init_empty_schema OptimizerConfigS) :=
  ⟨(c7_init_empty_idempotent ConfigS (defaultFields ConfigS.fieldList)).1,
   (c7_init_empty_idempotent ConfigS (defaultFields ConfigS.fieldList)).2.2.1
     "seed" (some (.int 0)) rfl,
   (c7_init_empty_idempotent ConfigS (defaultFields ConfigS.fieldList)).2.2.2
     "opt" OptimizerConfigS rfl⟩

/-- C8: strict field access — reading or writing an undeclared field name
on any config node (at any depth) fails with `UnknownFieldError`, and
`override_config(node, {"not_a_field": 1})` raises `UnknownFieldError`
leaving the node exactly as it was (no other field mutated in the same
call). -/
theorem c8_unknown_field (s : Schema) (vs : Entries) (k : String) (v : Val)
    (hinst : keysE vs = schemaNames s.fieldList)
    (hk : schemaMem s.fieldList k = false) :
    get_attr (.node s vs) k = .error (.unknownField s.clsOf k) ∧
    set_attr (.node s vs) k v = .error (.unknownField s.clsOf k) ∧
    override_config (.node s vs) (.dict (.cons k v .nil))
      = .err (.unknownField s.clsOf k) (.node s vs) := by
  have hkm : keyMem vs k = false := by
    cases hcase : keyMem vs k with
    | false => rfl
    | true =>
      rw [keyMem_iff_mem_keysE, hinst, ← schemaMem_iff_mem_names] at hcase
      rw [hcase] at hk
      cases hk
  refine ⟨get_attr_unknown s vs k hkm, set_attr_unknown s vs k v hkm, ?_⟩
  simp only [override_config, override_items, get_attr_unknown s vs k hkm]

/-- C8 witness: `{"not_a_field": 1}` on a default `Config` raises
`UnknownFieldError` and mutates nothing. -/
theorem c8_unknown_field_witness :
    keysE (defaultFields ConfigS.fieldList) = schemaNames ConfigS.fieldList ∧
    schemaMem ConfigS.fieldList "not_a_field" = false ∧
    override_config (.node ConfigS (defaultFields ConfigS.fieldList))
        (.dict (.cons "not_a_field" (.prim (.int 1)) .nil))
      = .err (.unknownField "Config" "not_a_field")
          (.node ConfigS (defaultFields ConfigS.fieldList)) :=
  ⟨rfl, rfl,
   (c8_unknown_field ConfigS (defaultFields ConfigS.fieldList) "not_a_field"
      (.prim (.int 1)) rfl rfl).2.2⟩

/-- C6: `init_empty` composes with `override_config`.  After blanking, a
field declared as a nested schema still holds a config node (namely the
blanked default instance of its declared schema, classified as a dataclass
by the override dispatch), so an override with a sub-mapping recurses into
it and writes the recursively overridden sub-node in place; a field
declared scalar holds `MISSING`, is classified as not-a-dataclass, and is
overwritten directly by its override value. -/
theorem c6_init_empty_then_override (s : Schema) (k : String) (v : Val) :
    (∀ s', schemaFind s.fieldList k = some (.nested s') →
      fieldOf (init_empty (defaultInst s)) k = some (init_empty_schema s') ∧
      is_dataclass (init_empty_schema s') = true ∧
      (∀ dsub sub',
        override_config (init_empty_schema s') (.dict dsub) = .ok sub' →
        override_config (init_empty (defaultInst s))
            (.dict (.cons k (.dict dsub) .nil))
          = .ok (.node s (entSet (init_empty_fields s.fieldList) k sub')))) ∧
    (∀ dflt, schemaFind s.fieldList k = some (.scalar dflt) →
      fieldOf (init_empty (defaultInst s)) k = some MISSING ∧
      is_dataclass MISSING = false ∧
      override_config (init_empty (defaultInst s)) (.dict (.cons k v .nil))
        = .ok (.node s (entSet (init_empty_fields s.fieldList) k v))) := by
  match s with
  | .mk c fs =>
    constructor
    · intro s' h
      have hlk : entLookup (init_empty_fields fs) k = some (init_empty_schema s') :=
        init_empty_fields_lookup_nested fs k s' h
      refine ⟨hlk, ?_, ?_⟩
      · match s' with
        | .mk c' fs' => rfl
      · intro dsub sub' hov
        match s' with
        | .mk c' fs' =>
          exact override_single_nested (.mk c fs) (init_empty_fields fs) k
            (.mk c' fs') (init_empty_fields fs') sub' (.dict dsub) hlk hov
    · intro dflt h
      have hlk : entLookup (init_empty_fields fs) k = some .missing :=
        init_empty_fields_lookup_scalar fs k dflt h
      exact ⟨hlk, rfl,
        override_single_direct (.mk c fs) (init_empty_fields fs) k
          .missing v hlk rfl⟩

/-- C6 witness: on a blanked default `Config`, the nested slot `opt`
still holds a config node and `{"opt": {"learning_rate": 5e-5}}` recurses
into it, while the blanked scalar leaf `seed` (holding `MISSING`) is
overwritten directly by `{"seed": 7}`. -/
theorem c6_init_empty_then_override_witness :
    fieldOf (init_empty (defaultInst ConfigS)) "opt"
      = some (init_empty_schema OptimizerConfigS) ∧
    override_config (init_empty (defaultInst ConfigS))
        (.dict (.cons "opt"
          (.dict (.cons "learning_rate"
            (.prim (.float (mkRat 5 100000))) .nil)) .nil))
      = .ok (.node ConfigS (entSet (init_empty_fields ConfigS.fieldList) "opt"
          (.node OptimizerConfigS
            (entSet (init_empty_fields OptimizerConfigS.fieldList)
              "learning_rate" (.prim (.float (mkRat 5 100000))))))) ∧
    override_config (init_empty (defaultInst ConfigS))
        (.dict (.cons "seed" (.prim (.int 7)) .nil))
      = .ok (.node ConfigS (entSet (init_empty_fields ConfigS.fieldList)
          "seed" (.prim (.int 7)))) :=
  ⟨((c6_init_empty_then_override ConfigS "opt" (.prim (.int 0))).1
      OptimizerConfigS rfl).1,
   ((c6_init_empty_then_override ConfigS "opt" (.prim (.int 0))).1
      OptimizerConfigS rfl).2.2
     (.cons "learning_rate" (.prim (.float (mkRat 5 100000))) .nil)
     (.node OptimizerConfigS
       (entSet (init_empty_fields OptimizerConfigS.fieldList)
         "learning_rate" (.prim (.float (mkRat 5 100000)))))
     (override_single_direct OptimizerConfigS
       (init_empty_fields OptimizerConfigS.fieldList) "learning_rate"
       .missing (.prim (.float (mkRat 5 100000))) rfl rfl),
   ((c6_init_empty_then_override ConfigS "seed" (.prim (.int 7))).2
      (some (.int 0)) rfl).2.2⟩

/-- C10: `init_empty` dispatches on the declared field type, not the
current value: its result does not depend on the current field values at
all; a field declared as a nested schema is set to the freshly
constructed, blanked default instance of that declared type; a field
declared scalar is set to `MISSING`.  By contrast `override_config`
dispatches on the current stored value: a field currently holding any
non-dataclass value (even `MISSING`) is simply overwritten. -/
theorem c10_declared_type_dispatch (s : Schema) (vs vs' : Entries) (k : String) :
    init_empty (.node s vs) = init_empty (.node s vs') ∧
    (∀ s', schemaFind s.fieldList k = some (.nested s') →
      fieldOf (init_empty (.node s vs)) k = some (init_empty_schema s') ∧
      init_empty_schema s' = init_empty (defaultInst s')) ∧
    (∀ dflt, schemaFind s.fieldList k = some (.scalar dflt) →
      fieldOf (init_empty (.node s vs)) k = some MISSING) ∧
    (∀ cur w, entLookup vs k = some cur → is_dataclass cur = false →
      override_config (.node s vs) (.dict (.cons k w .nil))
        = .ok (.node s (entSet vs k w))) := by
  refine ⟨rfl, ?_, ?_, ?_⟩
  · intro s' h
    exact ⟨init_empty_fields_lookup_nested _ k s' h,
      (init_empty_defaultInst s').symm⟩
  · intro dflt h
    exact init_empty_fields_lookup_scalar _ k dflt h
  · intro cur w hcur hdc
    exact override_single_direct s vs k cur w hcur hdc

/-- C10 witness: a `Config` node whose `opt` slot currently holds
`MISSING` — `init_empty` still re-establishes the declared blanked
`OptimizerConfig` instance there, and `override_config` on that node
overwrites the `MISSING`-holding slot directly. -/
theorem c10_declared_type_dispatch_witness :
    fieldOf (init_empty (.node ConfigS (eList [("opt", MISSING)]))) "opt"
      = some (init_empty_schema OptimizerConfigS) ∧
    override_config (.node ConfigS (eList [("opt", MISSING)]))
        (.dict (.cons "opt" (.prim (.int 3)) .nil))
      = .ok (.node ConfigS (entSet (eList [("opt", MISSING)]) "opt"
          (.prim (.int 3)))) :=
  ⟨((c10_declared_type_dispatch ConfigS (eList [("opt", MISSING)])
      (eList []) "opt").2.1 OptimizerConfigS rfl).1,
   (c10_declared_type_dispatch ConfigS (eList [("opt", MISSING)])
      (eList []) "opt").2.2.2 MISSING (.prim (.int 3)) rfl rfl⟩

/-! ## Lemmas: heap primitives -/

theorem hlookup_isSome (vals : List (String × HVal)) (k : String) :
    (hlookup vals k).isSome = hkeyMem vals k := by
  match vals with
  | [] => rfl
  | (k0, v0) :: rest =>
    have ih := hlookup_isSome rest k
    by_cases hk : k0 = k <;> simp [hlookup, hkeyMem, hk, ih]

theorem hlookup_hvalsSet_self (vals : List (String × HVal)) (k : String)
    (v : HVal) (h : hkeyMem vals k = true) :
    hlookup (hvalsSet vals k v) k = some v := by
  match vals with
  | [] => simp [hkeyMem] at h
  | (k0, v0) :: rest =>
    by_cases hk : k0 = k
    · simp [hvalsSet, hk, hlookup]
    · simp only [hkeyMem, Bool.or_eq_true, decide_eq_true_eq] at h
      have h' : hkeyMem rest k = true := by
        rcases h with h | h
        · exact absurd h hk
        · exact h
      simp [hvalsSet, hk, hlookup, hlookup_hvalsSet_self rest k v h']

theorem hlookup_hvalsSet_ne (vals : List (String × HVal)) (k k' : String)
    (v : HVal) (h : k ≠ k') :
    hlookup (hvalsSet vals k v) k' = hlookup vals k' := by
  match vals with
  | [] => rfl
  | (k0, v0) :: rest =>
    have ih := hlookup_hvalsSet_ne rest k k' v h
    by_cases hk : k0 = k
    · subst hk
      simp [hvalsSet, hlookup, h, ih]
    · by_cases hk' : k0 = k'
      · subst hk'
        simp [hvalsSet, hlookup, hk]
      · simp [hvalsSet, hlookup, hk, hk', ih]

theorem hkeyMem_hvalsSet (vals : List (String × HVal)) (k k' : String)
    (v : HVal) : hkeyMem (hvalsSet vals k v) k' = hkeyMem vals k' := by
  match vals with
  | [] => rfl
  | (k0, v0) :: rest =>
    have ih := hkeyMem_hvalsSet rest k k' v
    by_cases hk : k0 = k
    · subst hk
      by_cases hk' : k0 = k' <;> simp [hvalsSet, hkeyMem, hk', ih]
    · by_cases hk' : k0 = k'
      · subst hk'
        simp [hvalsSet, hkeyMem, hk]
      · simp [hvalsSet, hkeyMem, hk, hk', ih]

theorem namesPresent_ext (fs : SchemaFields) (v1 v2 : List (String × HVal))
    (hk : ∀ n, hkeyMem v1 n = hkeyMem v2 n) :
    namesPresent fs v1 = namesPresent fs v2 := by
  match fs with
  | .nil => rfl
  | .cons n ty rest =>
    rw [namesPresent, namesPresent, hk n, namesPresent_ext rest v1 v2 hk]

theorem namesPresent_of_schemaMem (fs : SchemaFields)
    (vals : List (String × HVal))
    (h : ∀ n, schemaMem fs n = true → hkeyMem vals n = true) :
    namesPresent fs vals = true := by
  match fs with
  | .nil => rfl
  | .cons n ty rest =>
    rw [namesPresent]
    simp only [Bool.and_eq_true]
    constructor
    · exact h n (by simp [schemaMem])
    · apply namesPresent_of_schemaMem rest vals
      intro n' hn'
      apply h n'
      rw [schemaMem]
      simp [hn']

theorem namesPresent_cons_elim (n : String) (ty : FieldTy)
    (rest : SchemaFields) (vals : List (String × HVal))
    (h : namesPresent (.cons n ty rest) vals = true) :
    hkeyMem vals n = true ∧ namesPresent rest vals = true := by
  rw [namesPresent] at h
  simpa using h

theorem schemaNodup_cons (n : String) (ty : FieldTy) (rest : SchemaFields)
    (h : schemaNodup (.cons n ty rest) = true) :
    schemaMem rest n = false ∧ schemaNodup rest = true := by
  rw [schemaNodup] at h
  simp only [Bool.and_eq_true, Bool.not_eq_true'] at h
  exact h

theorem hgetObjs_hsetObjs_ne (l : List (Nat × HObj)) (a : Nat) (k : String)
    (v : HVal) (c : Nat) (h : c ≠ a) :
    hgetObjs (hsetObjs l a k v) c = hgetObjs l c := by
  match l with
  | [] => rfl
  | (c0, o0) :: rest =>
    have ih := hgetObjs_hsetObjs_ne rest a k v c h
    by_cases hc : c0 = a
    · subst hc
      have hne : ¬(c0 = c) := fun he => h he.symm
      simp [hsetObjs, hgetObjs, hne]
    · by_cases hc' : c0 = c
      · subst hc'
        simp [hsetObjs, hgetObjs, hc]
      · simp [hsetObjs, hgetObjs, hc, hc', ih]

theorem hget_hset_ne (h : Heap) (a : Nat) (k : String) (v : HVal) (c : Nat)
    (hne : c ≠ a) : hget (hset h a k v) c = hget h c :=
  hgetObjs_hsetObjs_ne h.objs a k v c hne

theorem hgetObjs_hsetObjs_eq (l : List (Nat × HObj)) (a : Nat) (k : String)
    (v : HVal) (o : HObj) (h : hgetObjs l a = some o) :
    hgetObjs (hsetObjs l a k v) a
      = some ⟨o.schema, hvalsSet o.vals k v⟩ := by
  match l with
  | [] => simp [hgetObjs] at h
  | (c0, o0) :: rest =>
    by_cases hc : c0 = a
    · subst hc
      simp [hgetObjs] at h
      subst h
      simp [hsetObjs, hgetObjs]
    · simp [hgetObjs, hc] at h
      simp [hsetObjs, hgetObjs, hc,
        hgetObjs_hsetObjs_eq rest a k v o h]

theorem hget_hset_eq (h : Heap) (a : Nat) (k : String) (v : HVal)
    (o : HObj) (ho : hget h a = some o) :
    hget (hset h a k v) a = some ⟨o.schema, hvalsSet o.vals k v⟩ :=
  hgetObjs_hsetObjs_eq h.objs a k v o ho

theorem hset_next (h : Heap) (a : Nat) (k : String) (v : HVal) :
    (hset h a k v).next = h.next := rfl

theorem objsBelow_hsetObjs (l : List (Nat × HObj)) (a : Nat) (k : String)
    (v : HVal) (n : Nat) : objsBelow (hsetObjs l a k v) n = objsBelow l n := by
  match l with
  | [] => rfl
  | (c0, o0) :: rest =>
    have ih := objsBelow_hsetObjs rest a k v n
    by_cases hc : c0 = a <;> simp [hsetObjs, objsBelow, hc, ih]

theorem heapWF_hset (h : Heap) (a : Nat) (k : String) (v : HVal) :
    heapWF (hset h a k v) = heapWF h := by
  rw [heapWF, heapWF, hset_next]
  exact objsBelow_hsetObjs h.objs a k v h.next

theorem hgetObjs_below (l : List (Nat × HObj)) (n : Nat) (a : Nat)
    (o : HObj) (hwf : objsBelow l n = true) (h : hgetObjs l a = some o) :
    a < n := by
  match l with
  | [] => simp [hgetObjs] at h
  | (c0, o0) :: rest =>
    rw [objsBelow] at hwf
    simp only [Bool.and_eq_true, decide_eq_true_eq] at hwf
    by_cases hc : c0 = a
    · subst hc
      exact hwf.1
    · simp [hgetObjs, hc] at h
      exact hgetObjs_below rest n a o hwf.2 h

theorem hget_below (h : Heap) (a : Nat) (o : HObj)
    (hwf : heapWF h = true) (hg : hget h a = some o) : a < h.next :=
  hgetObjs_below h.objs h.next a o hwf hg

theorem objsBelow_mono (l : List (Nat × HObj)) (n m : Nat) (hnm : n ≤ m)
    (h : objsBelow l n = true) : objsBelow l m = true := by
  match l with
  | [] => rfl
  | (c0, o0) :: rest =>
    rw [objsBelow] at h ⊢
    simp only [Bool.and_eq_true, decide_eq_true_eq] at h ⊢
    exact ⟨Nat.lt_of_lt_of_le h.1 hnm, objsBelow_mono rest n m hnm h.2⟩

theorem heapWF_halloc (h : Heap) (o : HObj) (hwf : heapWF h = true) :
    heapWF (halloc h o).1 = true := by
  rw [heapWF] at hwf ⊢
  rw [halloc]
  simp only [objsBelow, Bool.and_eq_true, decide_eq_true_eq]
  exact ⟨Nat.lt_succ_self h.next,
    objsBelow_mono h.objs h.next (h.next + 1) (Nat.le_succ h.next) hwf⟩

theorem hget_halloc_eq (h : Heap) (o : HObj) :
    hget (halloc h o).1 h.next = some o := by
  rw [halloc, hget]
  simp [hgetObjs]

theorem hget_halloc_ne (h : Heap) (o : HObj) (c : Nat) (hc : c ≠ h.next) :
    hget (halloc h o).1 c = hget h c := by
  rw [halloc, hget, hget]
  simp only [hgetObjs]
  rw [if_neg (fun he => hc he.symm)]

/-! ## Lemmas: blanked regions -/

mutual
theorem blankedFieldsOK_mono (fs : SchemaFields) (h : Heap)
    (vals : List (String × HVal)) (lo lo' : Nat) (hle : lo ≤ lo')
    (hb : blankedFieldsOK h vals fs lo' = true) :
    blankedFieldsOK h vals fs lo = true := by
  match fs with
  | .nil => rfl
  | .cons name (.scalar d) rest =>
    rw [blankedFieldsOK] at hb ⊢
    simp only [Bool.and_eq_true] at hb ⊢
    exact ⟨hb.1, blankedFieldsOK_mono rest h vals lo lo' hle hb.2⟩
  | .cons name (.nested s') rest =>
    rw [blankedFieldsOK] at hb ⊢
    simp only [Bool.and_eq_true] at hb ⊢
    refine ⟨?_, blankedFieldsOK_mono rest h vals lo lo' hle hb.2⟩
    have h1 := hb.1
    cases hl : hlookup vals name with
    | none =>
      rw [hl] at h1
      cases h1
    | some hv =>
      rw [hl] at h1
      match hv with
      | .missing => cases h1
      | .prim p => cases h1
      | .ref b =>
        simp only [Bool.and_eq_true, decide_eq_true_eq] at h1 ⊢
        exact ⟨Nat.le_trans hle h1.1,
          isBlankedFresh_mono s' h b lo lo' hle h1.2⟩

theorem isBlankedFresh_mono (s : Schema) (h : Heap) (b : Nat) (lo lo' : Nat)
    (hle : lo ≤ lo') (hb : isBlankedFresh h b s lo' = true) :
    isBlankedFresh h b s lo = true := by
  match s with
  | .mk c fs =>
    rw [isBlankedFresh] at hb ⊢
    cases hg : hget h b with
    | none =>
      rw [hg] at hb
      cases hb
    | some o =>
      rw [hg] at hb
      simp only [Bool.and_eq_true] at hb ⊢
      exact ⟨hb.1, blankedFieldsOK_mono fs h o.vals lo lo' hle hb.2⟩
end

mutual
theorem blankedFieldsOK_stable (fs : SchemaFields) (h h' : Heap)
    (vals : List (String × HVal)) (lo : Nat)
    (hwf : heapWF h = true)
    (hagree : ∀ c, lo ≤ c → c < h.next → hget h' c = hget h c)
    (hb : blankedFieldsOK h vals fs lo = true) :
    blankedFieldsOK h' vals fs lo = true := by
  match fs with
  | .nil => rfl
  | .cons name (.scalar d) rest =>
    rw [blankedFieldsOK] at hb ⊢
    simp only [Bool.and_eq_true] at hb ⊢
    exact ⟨hb.1, blankedFieldsOK_stable rest h h' vals lo hwf hagree hb.2⟩
  | .cons name (.nested s') rest =>
    rw [blankedFieldsOK] at hb ⊢
    simp only [Bool.and_eq_true] at hb ⊢
    refine ⟨?_, blankedFieldsOK_stable rest h h' vals lo hwf hagree hb.2⟩
    have h1 := hb.1
    cases hl : hlookup vals name with
    | none =>
      rw [hl] at h1
      cases h1
    | some hv =>
      rw [hl] at h1
      match hv with
      | .missing => cases h1
      | .prim p => cases h1
      | .ref b =>
        simp only [Bool.and_eq_true, decide_eq_true_eq] at h1 ⊢
        exact ⟨h1.1,
          isBlankedFresh_stable s' h h' b lo hwf h1.1 hagree h1.2⟩

theorem isBlankedFresh_stable (s : Schema) (h h' : Heap) (b : Nat) (lo : Nat)
    (hwf : heapWF h = true) (hlb : lo ≤ b)
    (hagree : ∀ c, lo ≤ c → c < h.next → hget h' c = hget h c)
    (hb : isBlankedFresh h b s lo = true) :
    isBlankedFresh h' b s lo = true := by
  match s with
  | .mk c fs =>
    rw [isBlankedFresh] at hb ⊢
    cases hg : hget h b with
    | none =>
      rw [hg] at hb
      cases hb
    | some o =>
      rw [hg] at hb
      have hbn : b < h.next := hget_below h b o hwf hg
      rw [hagree b hlb hbn, hg]
      simp only [Bool.and_eq_true] at hb ⊢
      exact ⟨hb.1, blankedFieldsOK_stable fs h h' o.vals lo hwf hagree hb.2⟩
end

/-! ## Specification of heap instantiation -/

mutual
theorem instFields_spec (fs : SchemaFields) (h : Heap)
    (hwf : heapWF h = true) :
    h.next ≤ (instFields fs h).1.next ∧
    heapWF (instFields fs h).1 = true ∧
    (∀ c, c < h.next → hget (instFields fs h).1 c = hget h c) ∧
    (∀ n, hkeyMem (instFields fs h).2 n = schemaMem fs n) := by
  match fs with
  | .nil =>
    exact ⟨Nat.le_refl _, hwf, fun c _ => rfl, fun n => rfl⟩
  | .cons n0 (.scalar (some p)) rest =>
    obtain ⟨ihNext, ihWF, ihFrame, ihKeys⟩ := instFields_spec rest h hwf
    cases hIF : instFields rest h with
    | mk h1 vs =>
      simp only [hIF] at ihNext ihWF ihFrame ihKeys
      refine ⟨?_, ?_, ?_, ?_⟩ <;>
        simp only [instFields, hIF]
      · exact ihNext
      · exact ihWF
      · exact ihFrame
      · intro n
        rw [hkeyMem, schemaMem, ihKeys n]
  | .cons n0 (.scalar none) rest =>
    obtain ⟨ihNext, ihWF, ihFrame, ihKeys⟩ := instFields_spec rest h hwf
    cases hIF : instFields rest h with
    | mk h1 vs =>
      simp only [hIF] at ihNext ihWF ihFrame ihKeys
      refine ⟨?_, ?_, ?_, ?_⟩ <;>
        simp only [instFields, hIF]
      · exact ihNext
      · exact ihWF
      · exact ihFrame
      · intro n
        rw [hkeyMem, schemaMem, ihKeys n]
  | .cons n0 (.nested s) rest =>
    obtain ⟨iNextB, iBlt, iWF, iFrame, _⟩ := instantiate_spec s h hwf
    cases hI : instantiate s h with
    | mk h1 b =>
      simp only [hI] at iNextB iBlt iWF iFrame
      have hn1 : h.next ≤ h1.next := Nat.le_trans iNextB (Nat.le_of_lt iBlt)
      obtain ⟨ihNext, ihWF, ihFrame, ihKeys⟩ := instFields_spec rest h1 iWF
      cases hIF : instFields rest h1 with
      | mk h2 vs =>
        simp only [hIF] at ihNext ihWF ihFrame ihKeys
        refine ⟨?_, ?_, ?_, ?_⟩ <;>
          simp only [instFields, hI, hIF]
        · exact Nat.le_trans hn1 ihNext
        · exact ihWF
        · intro c hc
          rw [ihFrame c (Nat.lt_of_lt_of_le hc hn1), iFrame c hc]
        · intro n
          rw [hkeyMem, schemaMem, ihKeys n]

theorem instantiate_spec (s : Schema) (h : Heap) (hwf : heapWF h = true) :
    h.next ≤ (instantiate s h).2 ∧
    (instantiate s h).2 < (instantiate s h).1.next ∧
    heapWF (instantiate s h).1 = true ∧
    (∀ c, c < h.next → hget (instantiate s h).1 c = hget h c) ∧
    (∃ vals, hget (instantiate s h).1 (instantiate s h).2 = some ⟨s, vals⟩ ∧
      (∀ n, hkeyMem vals n = schemaMem s.fieldList n)) := by
  match s with
  | .mk c fs =>
    obtain ⟨ihNext, ihWF, ihFrame, ihKeys⟩ := instFields_spec fs h hwf
    cases hIF : instFields fs h with
    | mk h1 vs =>
      simp only [hIF] at ihNext ihWF ihFrame ihKeys
      refine ⟨?_, ?_, ?_, ?_, ?_⟩ <;>
        simp only [instantiate, hIF]
      · exact ihNext
      · exact Nat.lt_succ_self h1.next
      · exact heapWF_halloc h1 ⟨.mk c fs, vs⟩ ihWF
      · intro c' hc'
        have hne : c' ≠ h1.next :=
          Nat.ne_of_lt (Nat.lt_of_lt_of_le hc' ihNext)
        rw [hget_halloc_ne h1 ⟨.mk c fs, vs⟩ c' hne]
        exact ihFrame c' hc'
      · refine ⟨vs, ?_, ?_⟩
        · exact hget_halloc_eq h1 ⟨.mk c fs, vs⟩
        · intro n
          rw [ihKeys n]
          rfl
end

/-! ## Specification of heap init_empty -/

theorem schemaMem_cons_false (n : String) (ty : FieldTy)
    (rest : SchemaFields) (k : String)
    (h : schemaMem (.cons n ty rest) k = false) :
    n ≠ k ∧ schemaMem rest k = false := by
  rw [schemaMem] at h
  simp only [Bool.or_eq_false_iff, decide_eq_false_iff_not] at h
  exact h

mutual
theorem init_empty_fields_at_spec (fs : SchemaFields) (h : Heap) (a : Nat)
    (o : HObj)
    (hwf : heapWF h = true) (ho : hget h a = some o)
    (hnp : namesPresent fs o.vals = true)
    (hfw : schemaFieldsWF fs = true) (hnd : schemaNodup fs = true) :
    heapWF (init_empty_fields_at fs h a) = true ∧
    h.next ≤ (init_empty_fields_at fs h a).next ∧
    (∀ c, c < h.next → c ≠ a →
      hget (init_empty_fields_at fs h a) c = hget h c) ∧
    (∃ o', hget (init_empty_fields_at fs h a) a = some o' ∧
      o'.schema = o.schema ∧
      (∀ n, hkeyMem o'.vals n = hkeyMem o.vals n) ∧
      (∀ n, schemaMem fs n = false → hlookup o'.vals n = hlookup o.vals n) ∧
      blankedFieldsOK (init_empty_fields_at fs h a) o'.vals fs h.next = true) := by
  match fs with
  | .nil =>
    exact ⟨hwf, Nat.le_refl _, fun c _ _ => rfl,
      o, ho, rfl, fun n => rfl, fun n _ => rfl, rfl⟩
  | .cons name (.scalar d) rest =>
    obtain ⟨hkm, hnprest⟩ := namesPresent_cons_elim name _ rest o.vals hnp
    obtain ⟨hndm, hndr⟩ := schemaNodup_cons name _ rest hnd
    have hfwr : schemaFieldsWF rest = true := by
      rw [schemaFieldsWF] at hfw
      exact hfw
    have homid := hget_hset_eq h a name .missing o ho
    have hwfm : heapWF (hset h a name .missing) = true := by
      rw [heapWF_hset]
      exact hwf
    have hnpm : namesPresent rest (hvalsSet o.vals name .missing) = true := by
      rw [namesPresent_ext rest _ o.vals
        (fun n => hkeyMem_hvalsSet o.vals name n .missing)]
      exact hnprest
    obtain ⟨ihWF, ihNext, ihFrame, o', iho', ihSchema, ihKeys, ihUnt, ihBlank⟩ :=
      init_empty_fields_at_spec rest (hset h a name .missing) a
        ⟨o.schema, hvalsSet o.vals name .missing⟩ hwfm homid hnpm hfwr hndr
    rw [hset_next] at ihNext ihBlank
    simp only [init_empty_fields_at]
    refine ⟨ihWF, ihNext, ?_, o', iho', ihSchema, ?_, ?_, ?_⟩
    · intro c hc hca
      rw [ihFrame c (by rw [hset_next]; exact hc) hca]
      exact hget_hset_ne h a name .missing c hca
    · intro n
      rw [ihKeys n]
      exact hkeyMem_hvalsSet o.vals name n .missing
    · intro n hn
      obtain ⟨hne, hrest⟩ := schemaMem_cons_false name _ rest n hn
      rw [ihUnt n hrest]
      exact hlookup_hvalsSet_ne o.vals name n .missing hne
    · rw [blankedFieldsOK]
      simp only [Bool.and_eq_true]
      refine ⟨?_, ihBlank⟩
      rw [ihUnt name hndm, hlookup_hvalsSet_self o.vals name .missing hkm]
  | .cons name (.nested s') rest =>
    obtain ⟨hkm, hnprest⟩ := namesPresent_cons_elim name _ rest o.vals hnp
    obtain ⟨hndm, hndr⟩ := schemaNodup_cons name _ rest hnd
    have hfw' : schemaWF s' = true ∧ schemaFieldsWF rest = true := by
      rw [schemaFieldsWF] at hfw
      simpa using hfw
    obtain ⟨iNextB, iBlt, iWF, iFrame, valsb, ivb, ivbKeys⟩ :=
      instantiate_spec s' h hwf
    cases hI : instantiate s' h with
    | mk h1 b =>
      simp only [hI] at iNextB iBlt iWF iFrame ivb
      have haNext : a < h.next := hget_below h a o hwf ho
      have hab : a ≠ b := Nat.ne_of_lt (Nat.lt_of_lt_of_le haNext iNextB)
      have h1next : h.next ≤ h1.next := Nat.le_trans iNextB (Nat.le_of_lt iBlt)
      have hnpb : namesPresent s'.fieldList valsb = true :=
        namesPresent_of_schemaMem s'.fieldList valsb
          (fun n hn => by rw [ivbKeys n]; exact hn)
      obtain ⟨jWF, jNext, jFrame, jBlank⟩ :=
        init_empty_at_spec s' h1 b ⟨s', valsb⟩ iWF ivb rfl hnpb hfw'.1
      have h2next : h.next ≤ (init_empty_at s' h1 b).next :=
        Nat.le_trans h1next jNext
      have hget2a : hget (init_empty_at s' h1 b) a = some o := by
        rw [jFrame a (Nat.lt_of_lt_of_le haNext h1next) hab, iFrame a haNext]
        exact ho
      have homid := hget_hset_eq (init_empty_at s' h1 b) a name (.ref b) o hget2a
      have hwfm : heapWF (hset (init_empty_at s' h1 b) a name (.ref b)) = true := by
        rw [heapWF_hset]
        exact jWF
      have hnpm : namesPresent rest (hvalsSet o.vals name (.ref b)) = true := by
        rw [namesPresent_ext rest _ o.vals
          (fun n => hkeyMem_hvalsSet o.vals name n (.ref b))]
        exact hnprest
      obtain ⟨ihWF, ihNext, ihFrame, o', iho', ihSchema, ihKeys, ihUnt, ihBlank⟩ :=
        init_empty_fields_at_spec rest
          (hset (init_empty_at s' h1 b) a name (.ref b)) a
          ⟨o.schema, hvalsSet o.vals name (.ref b)⟩ hwfm homid hnpm hfw'.2 hndr
      rw [hset_next] at ihNext ihBlank
      simp only [init_empty_fields_at, hI]
      refine ⟨ihWF, Nat.le_trans h2next ihNext, ?_, o', iho', ihSchema,
        ?_, ?_, ?_⟩
      · intro c hc hca
        rw [ihFrame c (by rw [hset_next]; exact Nat.lt_of_lt_of_le hc h2next) hca]
        rw [hget_hset_ne (init_empty_at s' h1 b) a name (.ref b) c hca]
        rw [jFrame c (Nat.lt_of_lt_of_le hc h1next)
          (Nat.ne_of_lt (Nat.lt_of_lt_of_le hc iNextB))]
        exact iFrame c hc
      · intro n
        rw [ihKeys n]
        exact hkeyMem_hvalsSet o.vals name n (.ref b)
      · intro n hn
        obtain ⟨hne, hrest⟩ := schemaMem_cons_false name _ rest n hn
        rw [ihUnt n hrest]
        exact hlookup_hvalsSet_ne o.vals name n (.ref b) hne
      · rw [blankedFieldsOK]
        simp only [Bool.and_eq_true]
        refine ⟨?_, blankedFieldsOK_mono rest _ o'.vals h.next
          (init_empty_at s' h1 b).next h2next ihBlank⟩
        rw [ihUnt name hndm, hlookup_hvalsSet_self o.vals name (.ref b) hkm]
        simp only [Bool.and_eq_true, decide_eq_true_eq]
        refine ⟨iNextB, ?_⟩
        have s1 : isBlankedFresh (init_empty_at s' h1 b) b s' h.next = true :=
          isBlankedFresh_mono s' (init_empty_at s' h1 b) b h.next h1.next
            h1next jBlank
        have s2 : isBlankedFresh
            (hset (init_empty_at s' h1 b) a name (.ref b)) b s' h.next = true := by
          apply isBlankedFresh_stable s' (init_empty_at s' h1 b) _ b h.next
            jWF iNextB ?_ s1
          intro c hc1 hc2
          exact hget_hset_ne (init_empty_at s' h1 b) a name (.ref b) c
            (fun he => Nat.lt_irrefl a (Nat.lt_of_lt_of_le haNext (he ▸ hc1)))
        apply isBlankedFresh_stable s'
          (hset (init_empty_at s' h1 b) a name (.ref b)) _ b h.next
          hwfm iNextB ?_ s2
        intro c hc1 hc2
        exact ihFrame c hc2
          (fun he => Nat.lt_irrefl a (Nat.lt_of_lt_of_le haNext (he ▸ hc1)))

theorem init_empty_at_spec (s : Schema) (h : Heap) (b : Nat) (o : HObj)
    (hwf : heapWF h = true) (ho : hget h b = some o) (hos : o.schema = s)
    (hnp : namesPresent s.fieldList o.vals = true)
    (hsw : schemaWF s = true) :
    heapWF (init_empty_at s h b) = true ∧
    h.next ≤ (init_empty_at s h b).next ∧
    (∀ c, c < h.next → c ≠ b → hget (init_empty_at s h b) c = hget h c) ∧
    isBlankedFresh (init_empty_at s h b) b s h.next = true := by
  match s with
  | .mk c fs =>
    have hsw' : schemaFieldsWF fs = true ∧ schemaNodup fs = true := by
      rw [schemaWF] at hsw
      simpa using hsw
    obtain ⟨ihWF, ihNext, ihFrame, o', iho', ihSchema, _, _, ihBlank⟩ :=
      init_empty_fields_at_spec fs h b o hwf ho hnp hsw'.1 hsw'.2
    simp only [init_empty_at]
    refine ⟨ihWF, ihNext, ihFrame, ?_⟩
    rw [isBlankedFresh, iho']
    simp only [Bool.and_eq_true]
    constructor
    · rw [ihSchema, hos]
      simp
    · exact ihBlank
end

/-- C3: totality of `init_empty` — on any config object of any nesting
depth (any well-formed schema, with its declared attribute slots present),
`init_empty` returns the very reference it was given, and afterwards every
scalar leaf at every depth holds `MISSING` while every nested field holds
an instance of exactly its declared nested schema (blanked in turn), as
stated by `isBlankedFresh … 0`. -/
theorem c3_init_empty_totality (h : Heap) (a : Nat) (o : HObj)
    (hwf : heapWF h = true) (ho : hget h a = some o)
    (hnp : namesPresent o.schema.fieldList o.vals = true)
    (hsw : schemaWF o.schema = true) :
    (init_empty_heap h a).2 = a ∧
    isBlankedFresh (init_empty_heap h a).1 a o.schema 0 = true := by
  obtain ⟨_, _, _, hb⟩ := init_empty_at_spec o.schema h a o hwf ho rfl hnp hsw
  simp only [init_empty_heap, ho]
  refine ⟨?_, isBlankedFresh_mono o.schema _ a 0 h.next (Nat.zero_le _) hb⟩
  trivial

set_option maxHeartbeats 2000000 in
/-- C3 witness: a `Config()` instance freshly built on the empty heap;
after `init_empty` the returned address is the argument address and the
whole tree is blanked with correctly-typed nested instances. -/
theorem c3_init_empty_totality_witness :
    heapWF configHeapPair.1 = true ∧
    hget configHeapPair.1 configHeapPair.2 = some configObj ∧
    namesPresent configObj.schema.fieldList configObj.vals = true ∧
    schemaWF configObj.schema = true ∧
    (init_empty_heap configHeapPair.1 configHeapPair.2).2 = configHeapPair.2 ∧
    isBlankedFresh (init_empty_heap configHeapPair.1 configHeapPair.2).1
      configHeapPair.2 configObj.schema 0 = true := by
  refine ⟨by decide, by decide, by decide, by decide, ?_, ?_⟩
  · exact (c3_init_empty_totality configHeapPair.1 configHeapPair.2 configObj
      (by decide) (by decide) (by decide) (by decide)).1
  · exact (c3_init_empty_totality configHeapPair.1 configHeapPair.2 configObj
      (by decide) (by decide) (by decide) (by decide)).2

/-- C9: `init_empty` introduces no aliasing — every heap object that
existed before the call, other than the root being blanked, is untouched,
and every nested config node reachable from the blanked root is a newly
allocated instance (its address is at or above the pre-call allocation
watermark at every depth), so mutating the returned tree cannot mutate any
pre-existing config node. -/
theorem c9_init_empty_no_aliasing (h : Heap) (a : Nat) (o : HObj)
    (hwf : heapWF h = true) (ho : hget h a = some o)
    (hnp : namesPresent o.schema.fieldList o.vals = true)
    (hsw : schemaWF o.schema = true) :
    (∀ c, c < h.next → c ≠ a →
      hget (init_empty_heap h a).1 c = hget h c) ∧
    isBlankedFresh (init_empty_heap h a).1 a o.schema h.next = true := by
  obtain ⟨_, _, hframe, hb⟩ :=
    init_empty_at_spec o.schema h a o hwf ho rfl hnp hsw
  simp only [init_empty_heap, ho]
  exact ⟨hframe, hb⟩

set_option maxHeartbeats 2000000 in
/-- C9 witness: on the freshly built `Config()` heap, blanking the root
leaves the pre-existing sub-config objects' slots untouched (checked for
the old `opt` sub-object's address) and the new `opt` slot of the root
points at a fresh address at or above the pre-call watermark. -/
theorem c9_init_empty_no_aliasing_witness :
    isBlankedFresh (init_empty_heap configHeapPair.1 configHeapPair.2).1
      configHeapPair.2 configObj.schema configHeapPair.1.next = true ∧
    (∀ c, c < configHeapPair.1.next → c ≠ configHeapPair.2 →
      hget (init_empty_heap configHeapPair.1 configHeapPair.2).1 c
        = hget configHeapPair.1 c) := by
  have happ := c9_init_empty_no_aliasing configHeapPair.1 configHeapPair.2
    configObj (by decide) (by decide) (by decide) (by decide)
  exact ⟨happ.2, happ.1⟩

end SynFlowNet
